import Mathlib

/-!
Verification development for the nginx-ui reconciliation and discovery engine.

The Go sources are shallowly embedded:
* the parsed low-level config is a tree of named directives (the external
  gonginx parser is consumed as a black box and modelled from the spec's
  grammar description);
* the `Manager` filesystem state (available / enabled / archived directories,
  main config, manifest directory) is an explicit record of directory listings,
  and each lifecycle operation is a function from states to `Except`-wrapped
  states;
* network liveness probes and external validate/reload binaries are oracles
  passed in as parameters.
-/

namespace NginxUI

/-- Decimal digits of a natural number, least significant first; the fuel
(first argument) makes the recursion structural and is sufficient whenever it
is at least the number itself, since the number shrinks by a factor of ten
per step. -/
def natDigitsRevAux : Nat → Nat → List Char
  | _, 0 => []
  | 0, _ + 1 => []
  | fuel + 1, n + 1 => Char.ofNat ((n + 1) % 10 + 48) :: natDigitsRevAux fuel ((n + 1) / 10)

/-- Decimal digits of a natural number, least significant first. -/
def natDigitsRev (n : Nat) : List Char :=
  natDigitsRevAux n n

/-- Decimal rendering of a natural number (model of Go `%d` on non-negatives). -/
def natRepr (n : Nat) : String :=
  if n = 0 then "0" else String.mk (natDigitsRev n).reverse

/-- Decimal rendering of an integer (model of Go `%d`). -/
def intRepr : Int → String
  | Int.ofNat n => natRepr n
  | Int.negSucc n => "-" ++ natRepr (n + 1)

/-- A parsed config directive: a name, positional parameters, and an optional
nested block, mirroring the directive/block shape the engine inspects
(gonginx `IDirective` / `IBlock`; a `none` block corresponds to a nil block). -/
inductive Directive where
  | mk (name : String) (params : List String) (block : Option (List Directive))

def Directive.name : Directive → String
  | .mk n _ _ => n

def Directive.params : Directive → List String
  | .mk _ p _ => p

def Directive.block : Directive → Option (List Directive)
  | .mk _ _ b => b

/-- Characters that separate tokens in the config grammar. -/
def isSpaceChar (c : Char) : Bool :=
  c = ' ' || c = '\n' || c = '\t' || c = '\r'

/-- Structural characters of the config grammar. -/
def isSpecialChar (c : Char) : Bool :=
  c = '\x7b' || c = '\x7d' || c = ';'

/-- Emit the accumulated word (reversed accumulator), if non-empty. -/
def flushTok (acc : List Char) : List String :=
  if acc = [] then [] else [String.mk acc.reverse]

/-- Modelled from the spec: tokenizer for the external config grammar
("directive name, whitespace-separated parameters, optional brace-nested
block, semicolon-terminated simple directives").  Words are maximal runs of
non-space, non-structural characters; braces and semicolons are single-character
tokens. -/
def tokenizeAux : List Char → List Char → List String
  | [], acc => flushTok acc
  | c :: cs, acc =>
    if isSpaceChar c then flushTok acc ++ tokenizeAux cs []
    else if isSpecialChar c then flushTok acc ++ [String.mk [c]] ++ tokenizeAux cs []
    else tokenizeAux cs (c :: acc)

def tokenize (s : String) : List String :=
  tokenizeAux s.data []

mutual

/-- Modelled from the spec: recursive-descent parser for the external config
grammar, consuming the token stream.  `parseDirs` parses a directive sequence
up to end-of-input or a closing brace; `parseOne` parses the remainder of a
single directive whose name has been consumed.  `fuel` bounds recursion depth.
Missing from src/: the gonginx parser is an external dependency. -/
def parseDirs : Nat → List String → Option (List Directive × List String)
  | 0, _ => none
  | _ + 1, [] => some ([], [])
  | fuel + 1, t :: ts =>
    if t = "\x7d" then some ([], t :: ts)
    else if t = "\x7b" ∨ t = ";" then none
    else
      match parseOne fuel t [] ts with
      | none => none
      | some (d, rest) =>
        match parseDirs fuel rest with
        | none => none
        | some (ds, rest') => some (d :: ds, rest')

/-- Modelled from the spec: parse the parameters and optional block of one
directive (name already consumed, parameters accumulated reversed). -/
def parseOne : Nat → String → List String → List String → Option (Directive × List String)
  | 0, _, _, _ => none
  | _ + 1, _, _, [] => none
  | fuel + 1, name, acc, t :: ts =>
    if t = ";" then some (.mk name acc.reverse none, ts)
    else if t = "\x7b" then
      match parseDirs fuel ts with
      | some (ds, u :: rest) => if u = "\x7d" then some (.mk name acc.reverse (some ds), rest) else none
      | _ => none
    else if t = "\x7d" then none
    else parseOne fuel name (t :: acc) ts

end

/-- Modelled from the spec: full parse of a config text; succeeds only when the
whole token stream is consumed as a directive sequence. -/
def parseNginxConfig (s : String) : Option (List Directive) :=
  let ts := tokenize s
  match parseDirs (2 * ts.length + 2) ts with
  | some (ds, []) => some ds
  | _ => none

/-- One step of the server-block scan: the loop body of the Go
`Manager.parseServerBlock`.  State is `(port, domain, hasSSL)`.  A `listen`
directive with parameters overwrites the port with its first parameter and
sets SSL when a literal "ssl" appears among its parameters; `server_name`
with parameters overwrites the domain with its first parameter;
`ssl_certificate` sets SSL. -/
def stepServerDir (st : String × String × Bool) (d : Directive) : String × String × Bool :=
  let portSsl :=
    if d.name = "listen" then
      match d.params with
      | [] => (st.1, st.2.2)
      | p :: _ => (p, st.2.2 || d.params.contains "ssl")
    else (st.1, st.2.2)
  let domain :=
    if d.name = "server_name" then
      match d.params with
      | [] => st.2.1
      | p :: _ => p
    else st.2.1
  let ssl := if d.name = "ssl_certificate" then true else portSsl.2
  (portSsl.1, domain, ssl)

/-- Model of `Manager.parseServerBlock`: scan a server block for listen port
(default "80"), server name (default "") and SSL status; a `none` block is
the Go nil-block case. -/
def parseServerBlock : Option (List Directive) → String × String × Bool
  | none => ("http://127.0.0.1:80", "", false)
  | some ds =>
    let st := ds.foldl stepServerDir ("80", "", false)
    ("http://127.0.0.1:" ++ st.1, st.2.1, st.2.2)

/-- First `server` directive's block within a (parsed) `http` block:
the inner loop of the Go `Manager.extractSiteDetails`. -/
def innerServer : List Directive → Option (Option (List Directive))
  | [] => none
  | d :: rest => if d.name = "server" then some d.block else innerServer rest

/-- The first server block found by the top-level scan of the Go
`Manager.extractSiteDetails`: a top-level `server` directive, or the first
`server` inside a top-level `http` block; when an `http` block contains no
`server`, the top-level scan continues. -/
def firstServer : List Directive → Option (Option (List Directive))
  | [] => none
  | d :: rest =>
    if d.name = "server" then some d.block
    else if d.name = "http" then
      match d.block with
      | some bds =>
        match innerServer bds with
        | some b => some b
        | none => firstServer rest
      | none => firstServer rest
    else firstServer rest

/-- Model of `Manager.extractSiteDetails` applied to the parse result of the
file at the given path (`none` = the Go parser returned an error):
returns `(checkURL, domain, hasSSL)`, all-empty/false when the parse failed
or no server block exists. -/
def extractSiteDetails : Option (List Directive) → String × String × Bool
  | none => ("", "", false)
  | some ds =>
    match firstServer ds with
    | some b => parseServerBlock b
    | none => ("", "", false)

/-- First `proxy_pass` directive with at least one parameter in a directive
list (the inner loop of the Go `findProxyPass` closure over a `location`
block). -/
def proxyPassParam : List Directive → Option String
  | [] => none
  | d :: rest =>
    if d.name = "proxy_pass" then
      match d.params with
      | p :: _ => some p
      | [] => proxyPassParam rest
    else proxyPassParam rest

/-- Model of the Go `findProxyPass` closure in `Manager.GetProxyTarget`:
for each directive, first look for a `proxy_pass` directly inside a
`location` block, then search the directive's own block recursively, then
move on; `none` models the "proxy_pass not found" error.  The fuel makes
the recursion structural; it is sufficient whenever it exceeds the number
of directive nodes, since every recursive call moves to a strictly smaller
part of the tree. -/
def findProxyPass : Nat → List Directive → Option String
  | 0, _ => none
  | _ + 1, [] => none
  | fuel + 1, d :: rest =>
    let fromLoc :=
      if d.name = "location" then
        match d.block with
        | some bds => proxyPassParam bds
        | none => none
      else none
    match fromLoc with
    | some t => some t
    | none =>
      match (match d.block with
             | some bds => findProxyPass fuel bds
             | none => none) with
      | some t => some t
      | none => findProxyPass fuel rest

/-- Scan of the inner directives of a top-level `http` block for a `server`
block containing a proxy target (part of the top-level loop of the Go
`Manager.GetProxyTarget`).  A `server` whose search fails does not stop the
scan.  (gonginx always attaches a block to a braced directive; a blockless
`server` is modelled as not containing a target.) -/
def proxyScanHttp : Nat → List Directive → Option String
  | 0, _ => none
  | _ + 1, [] => none
  | fuel + 1, d :: rest =>
    if d.name = "server" then
      match d.block with
      | some bds =>
        match findProxyPass fuel bds with
        | some t => some t
        | none => proxyScanHttp fuel rest
      | none => proxyScanHttp fuel rest
    else proxyScanHttp fuel rest

/-- The top-level loop of the Go `Manager.GetProxyTarget`: find the first
proxy target under a top-level `server` block or under `http > server`. -/
def proxyScanTop : Nat → List Directive → Option String
  | 0, _ => none
  | _ + 1, [] => none
  | fuel + 1, d :: rest =>
    if d.name = "server" then
      match d.block with
      | some bds =>
        match findProxyPass fuel bds with
        | some t => some t
        | none => proxyScanTop fuel rest
      | none => proxyScanTop fuel rest
    else if d.name = "http" then
      match d.block with
      | some bds =>
        match proxyScanHttp fuel bds with
        | some t => some t
        | none => proxyScanTop fuel rest
      | none => proxyScanTop fuel rest
    else proxyScanTop fuel rest

/-- Is the second list a prefix of the first?  (Model of Go
`strings.HasPrefix` at the character level.) -/
def listStartsWith : List Char → List Char → Bool
  | _, [] => true
  | [], _ :: _ => false
  | a :: as, b :: bs => a == b && listStartsWith as bs

/-- Model of Go `strings.HasPrefix`. -/
def strStartsWith (s p : String) : Bool :=
  listStartsWith s.data p.data

/-- Model of Go `strings.HasSuffix`. -/
def strEndsWith (s p : String) : Bool :=
  listStartsWith s.data.reverse p.data.reverse

/-- Does the string contain the character?  (Model of Go `strings.Contains`
with a one-character needle.) -/
def strContainsChar (s : String) (c : Char) : Bool :=
  s.data.contains c

/-- Drop the first n characters. -/
def strDrop (s : String) (n : Nat) : String :=
  String.mk (s.data.drop n)

/-- Drop the last n characters. -/
def strDropRight (s : String) (n : Nat) : String :=
  String.mk (s.data.take (s.data.length - n))

/-- Model of Go `strings.ReplaceAll` specialized to the one-character
pattern and replacement the engine uses. -/
def replaceChar (s : String) (a b : Char) : String :=
  String.mk (s.data.map (fun c => if c = a then b else c))

/-- Decimal digit value of a character, if any. -/
def digitVal? (c : Char) : Option Nat :=
  if 48 ≤ c.toNat ∧ c.toNat ≤ 57 then some (c.toNat - 48) else none

/-- Accumulate a decimal value over characters, failing at the first
non-digit. -/
def digitsValAux : List Char → Nat → Option Nat
  | [], acc => some acc
  | c :: cs, acc =>
    match digitVal? c with
    | some d => digitsValAux cs (acc * 10 + d)
    | none => none

/-- Model of Go `strconv.Atoi`: an optional sign followed by at least one
decimal digit. -/
def atoi (s : String) : Option Int :=
  match s.data with
  | [] => none
  | '+' :: cs => if cs = [] then none else (digitsValAux cs 0).map Int.ofNat
  | '-' :: cs => if cs = [] then none else (digitsValAux cs 0).map (fun n => -(Int.ofNat n))
  | cs => (digitsValAux cs 0).map Int.ofNat

/-- Model of Go `net.SplitHostPort` restricted to non-bracketed addresses
(the engine never feeds it bracketed IPv6 literals): split at the last colon,
failing when there is no colon or the host part still contains one. -/
def splitHostPort (s : String) : Option (String × String) :=
  if strContainsChar s '[' || strContainsChar s ']' then none
  else
    match (s.data.enum.filter (fun p => p.2 = ':')).getLast? with
    | none => none
    | some (i, _) =>
      let host := String.mk (s.data.take i)
      let port := String.mk (s.data.drop (i + 1))
      if strContainsChar host ':' then none else some (host, port)

/-- Model of the Go `parseProxyUrl`: strip an `http://`/`https://` scheme,
split host and port, and fall back to the whole remainder as host with port
80 when splitting or the port's integer parse fails.  The Go function never
returns an error. -/
def parseProxyUrl (rawUrl : String) : String × String × Int :=
  let protoRest :=
    if strStartsWith rawUrl "https://" then ("https", strDrop rawUrl 8)
    else ("http", if strStartsWith rawUrl "http://" then strDrop rawUrl 7 else rawUrl)
  match splitHostPort protoRest.2 with
  | none => (protoRest.1, protoRest.2, 80)
  | some (host, portStr) =>
    match atoi portStr with
    | none => (protoRest.1, host, 80)
    | some p => (protoRest.1, host, p)

/-- Parse result of a file's content (`none` both for a missing file, where
the Go parser constructor errors, and for unparsable content). -/
def parseFile (content : Option String) : Option (List Directive) :=
  content.bind parseNginxConfig

/-- Model of `Manager.GetProxyTarget` applied to a file's content (`none` =
missing file): parse, locate the first proxy target, split it into
`(protocol, hostname, port)`.  The scan fuel `(tokenize s).length + 1`
exceeds the number of directive nodes (every directive consumes at least two
tokens), and every recursive scan step retires at least one node, so the
fuel never runs out on a parsed tree. -/
def getProxyTargetConf (content : Option String) : Except String (String × String × Int) :=
  match content with
  | none => .error "parse error"
  | some s =>
    match parseNginxConfig s with
    | none => .error "parse error"
    | some ds =>
      match proxyScanTop ((tokenize s).length + 1) ds with
      | some t => .ok (parseProxyUrl t)
      | none => .error "no proxy target found"

/-- A high-level application manifest (discovery.AppManifest). -/
structure AppManifest where
  domain : String
  protocol : String
  hostname : String
  port : Int

/-- A directory entry as seen by `os.ReadDir`, together with the entry's
file content (unused for directories). -/
structure DirEntry where
  name : String
  isDir : Bool
  content : String

/-- The filesystem state the engine operates on: the available / archived
directory listings, the enabled-directory symlinks (name, target), the
manifest directory, and the main config's content (`none` when the file is
missing). -/
structure FS where
  avail : List DirEntry
  arch : List DirEntry
  enabled : List (String × String)
  manifests : List (String × AppManifest)
  mainText : Option String

/-- The directory layout of `nginx.Manager`. -/
structure Manager where
  configDir : String
  enabledDir : String
  archivedDir : String
  nginxBinPath : String
  mainConfigPath : String

/-- Model of `filepath.Join` for the joins the engine performs. -/
def pathJoin (a b : String) : String :=
  if a = "" then b else a ++ "/" ++ b

/-- Model of `Manager.resolvePath`: the sentinel maps to the main config
path, every other name into the available directory. -/
def resolvePath (m : Manager) (filename : String) : String :=
  if filename = "nginx.conf" then m.mainConfigPath else pathJoin m.configDir filename

/-- Content of the file called `n` in a directory listing (`none` when the
file is missing). -/
def lookupFile (entries : List DirEntry) (n : String) : Option String :=
  match entries.find? (fun e => e.name = n) with
  | some e => some e.content
  | none => none

/-- Reading the file at `resolvePath m filename`. -/
def readAvailFile (fs : FS) (filename : String) : Option String :=
  if filename = "nginx.conf" then fs.mainText else lookupFile fs.avail filename

/-- Model of `Manager.GetProxyTarget` over the filesystem state. -/
def getProxyTarget (fs : FS) (filename : String) : Except String (String × String × Int) :=
  getProxyTargetConf (readAvailFile fs filename)

/-- The aggregate per-site view (`nginx.SiteInfo`). -/
structure SiteInfo where
  name : String
  path : String
  url : String
  upstream : String
  isActive : Bool
  hasSSL : Bool
  isEnabled : Bool
  isArchived : Bool

/-- Names discovered in the available directory by `GetSites`:
non-directory, non-hidden entries. -/
def availNames (fs : FS) : List String :=
  (fs.avail.filter (fun e => !e.isDir && !(strStartsWith e.name "."))).map DirEntry.name

/-- Names discovered in the archived directory by `GetSites`: non-directory
entries with the ".conf" extension, scanned only when an archived directory
is configured. -/
def archNames (m : Manager) (fs : FS) : List String :=
  if m.archivedDir = "" then []
  else (fs.arch.filter (fun e => !e.isDir && strEndsWith e.name ".conf")).map DirEntry.name

/-- The raw site-name list of `GetSites`: the main-config sentinel prepended
to the available and archived scans. -/
def rawSites (m : Manager) (fs : FS) : List String :=
  "nginx.conf" :: (availNames fs ++ archNames m fs)

/-- The body of one concurrent inspection task of `GetSites`. `probe` is the
liveness oracle standing for `checkSiteStatus` (an HTTP GET against the check
URL with the domain as Host header). -/
def buildSiteInfo (m : Manager) (fs : FS) (probe : String → String → Bool) (fname : String) :
    SiteInfo :=
  let isArch := (archNames m fs).contains fname
  let fullPath := if isArch then pathJoin m.archivedDir fname else resolvePath m fname
  let content := if isArch then lookupFile fs.arch fname else readAvailFile fs fname
  let ext := extractSiteDetails (parseFile content)
  let checkUrl := ext.1
  let domain := ext.2.1
  let hasSSL := ext.2.2
  let displayUrl :=
    if domain ≠ "" && domain ≠ "_" then
      (if hasSSL then "https" else "http") ++ "://" ++ domain
    else checkUrl
  let upstream :=
    match getProxyTarget fs fname with
    | .ok (p, h, pt) => p ++ "://" ++ h ++ ":" ++ intRepr pt
    | .error _ => ""
  let activeDisplay :=
    if checkUrl ≠ "" then (probe checkUrl domain, displayUrl) else (false, "N/A")
  let enabled :=
    if m.enabledDir ≠ "" && fname ≠ "nginx.conf" && !isArch then
      (fs.enabled.lookup fname).isSome
    else if isArch then false
    else true
  ⟨fname, fullPath, activeDisplay.2, upstream, activeDisplay.1, hasSSL, enabled, isArch⟩

/-- The comparison `sort.Slice` uses in `GetSites`: order site entries by
name. -/
def byName (a b : SiteInfo) : Prop :=
  a.name.data ≤ b.name.data

instance : DecidableRel byName := fun a b => inferInstanceAs (Decidable (a.name.data ≤ b.name.data))

instance : IsTotal SiteInfo byName := ⟨fun a b => le_total a.name.data b.name.data⟩

instance : IsTrans SiteInfo byName := ⟨fun _ _ _ h1 h2 => le_trans h1 h2⟩

/-- Name sort of the collected results, modelling the final
`sort.Slice(sites, by Name)` of `GetSites` (the channel's arrival order is
irrelevant after sorting). -/
def sortByName (l : List SiteInfo) : List SiteInfo :=
  List.insertionSort byName l

/-- Model of `Manager.GetSites`: enumerate, inspect every name, sort by
name. -/
def getSites (m : Manager) (fs : FS) (probe : String → String → Bool) : List SiteInfo :=
  sortByName ((rawSites m fs).map (buildSiteInfo m fs probe))

def eraseEntry (entries : List DirEntry) (n : String) : List DirEntry :=
  entries.filter (fun e => e.name ≠ n)

def findEntry (entries : List DirEntry) (n : String) : Option DirEntry :=
  entries.find? (fun e => e.name = n)

/-- Model of `Manager.DisableSite`: sentinel guard, enabled-directory guard,
then removal of the symlink (`os.Remove` fails when no entry exists). -/
def disableSite (m : Manager) (fs : FS) (name : String) : Except String FS :=
  if name = "nginx.conf" then .error "cannot toggle main nginx.conf"
  else if m.enabledDir = "" then .error "enabled directory not configured"
  else
    match fs.enabled.lookup name with
    | none => .error "remove: no such file or directory"
    | some _ => .ok { fs with enabled := fs.enabled.filter (fun e => e.1 ≠ name) }

/-- Model of `Manager.EnableSite`: sentinel guard, enabled-directory guard,
no-op when the link already exists, otherwise create the symlink pointing at
the available path. -/
def enableSite (m : Manager) (fs : FS) (name : String) : Except String FS :=
  if name = "nginx.conf" then .error "cannot toggle main nginx.conf"
  else if m.enabledDir = "" then .error "enabled directory not configured"
  else
    match fs.enabled.lookup name with
    | some _ => .ok fs
    | none => .ok { fs with enabled := (name, pathJoin m.configDir name) :: fs.enabled }

/-- Model of `Manager.ArchiveSite`: sentinel guard, best-effort disable with
the error swallowed, then `os.Rename` from available to archived (failing
when the source is missing, silently replacing an archived file of the same
name). -/
def archiveSite (m : Manager) (fs : FS) (name : String) : Except String FS :=
  if name = "nginx.conf" then .error "cannot archive main nginx.conf"
  else
    let fs1 := match disableSite m fs name with
      | .ok f => f
      | .error _ => fs
    match findEntry fs1.avail name with
    | none => .error "rename: no such file or directory"
    | some e =>
      .ok { fs1 with avail := eraseEntry fs1.avail name,
                     arch := eraseEntry fs1.arch name ++ [e] }

/-- Model of `Manager.RestoreSite`: conflict when the name already exists in
the available directory, otherwise `os.Rename` from archived to available. -/
def restoreSite (fs : FS) (name : String) : Except String FS :=
  match findEntry fs.avail name with
  | some _ => .error ("site " ++ name ++ " already exists in available sites")
  | none =>
    match findEntry fs.arch name with
    | none => .error "rename: no such file or directory"
    | some e =>
      .ok { fs with arch := eraseEntry fs.arch name,
                    avail := fs.avail ++ [e] }

/-- Model of `Manager.SaveConfig`: write `content` at
`resolvePath m filename`, overwriting unconditionally. -/
def saveConfig (fs : FS) (filename content : String) : FS :=
  if filename = "nginx.conf" then { fs with mainText := some content }
  else
    { fs with avail :=
        if (fs.avail.find? (fun x => x.name = filename)).isSome then
          fs.avail.map (fun x => if x.name = filename then ⟨filename, false, content⟩ else x)
        else fs.avail ++ [⟨filename, false, content⟩] }

/-- The watcher configuration (discovery.Watcher). -/
structure Watcher where
  appsDir : String
  nginxListenPort : Int

/-- Model of Go `strings.TrimSuffix`. -/
def trimSuffix (s suf : String) : String :=
  if strEndsWith s suf then strDropRight s suf.data.length else s

/-- Model of `Watcher.generateNginxConfig`: fixed server/location template;
the listen port is the watcher's configured port unless the manifest domain
embeds a parsable `host:port`, in which case the embedded host becomes the
server name and the embedded port the listen port. -/
def generateNginxConfig (w : Watcher) (app : AppManifest) : String :=
  let protocol := if app.protocol = "" then "http" else app.protocol
  let hostname := if app.hostname = "" then "127.0.0.1" else app.hostname
  let lpSn : Int × String :=
    match splitHostPort app.domain with
    | some (host, portStr) =>
      (match atoi portStr with
       | some p => p
       | none => w.nginxListenPort, host)
    | none => (w.nginxListenPort, app.domain)
  "server \x7b\n    listen " ++ intRepr lpSn.1 ++ ";\n    server_name " ++ lpSn.2 ++
    ";\n\n    location / \x7b\n        proxy_pass " ++ protocol ++ "://" ++ hostname ++ ":" ++
    intRepr app.port ++
    ";\n        proxy_set_header Host $host;\n        proxy_set_header X-Real-IP $remote_addr;\n    \x7d\n\x7d\n"

/-- The externally visible actions of the manifest-change handler, in order:
config save, site enable, validate run, reload run. -/
inductive Action where
  | save (name : String)
  | enable (name : String)
  | validate
  | reload

/-- Model of `Watcher.handleFileChange`.  `parsed` is the read+YAML-parse
result of the file at `path` (`none` for a read or parse failure); a missing
domain or zero port discards the event; otherwise the derived config is
saved, enabled when an enabled directory is configured (enable errors only
logged), validated (`validateOk` oracle), and reloaded when validation
passed. -/
def handleFileChange (w : Watcher) (m : Manager) (fs : FS) (path : String)
    (parsed : Option AppManifest) (validateOk : Bool) : FS × List Action :=
  if ¬(strEndsWith path ".yaml" || strEndsWith path ".yml") then (fs, [])
  else match parsed with
  | none => (fs, [])
  | some app =>
    if app.domain = "" || app.port = 0 then (fs, [])
    else
      let confName := replaceChar app.domain ':' '_' ++ ".conf"
      let fs1 := saveConfig fs confName (generateNginxConfig w app)
      let fs2acts :=
        if m.enabledDir ≠ "" then
          match enableSite m fs1 confName with
          | .ok f => (f, [Action.save confName, Action.enable confName])
          | .error _ => (fs1, [Action.save confName, Action.enable confName])
        else (fs1, [Action.save confName])
      if validateOk then (fs2acts.1, fs2acts.2 ++ [Action.validate, Action.reload])
      else (fs2acts.1, fs2acts.2 ++ [Action.validate])

/-- One iteration of the reverse-discovery loop of `Watcher.SyncManifests`:
skip the sentinel, skip non-proxy or unparsable configs, skip names whose
manifest already exists, otherwise write the manifest derived from the
filename (extension stripped, "_" mapped back to ":") and the proxy
target. -/
def syncStep (fs : FS) (siteName : String) : FS :=
  if siteName = "nginx.conf" then fs
  else match getProxyTarget fs siteName with
  | .error _ => fs
  | .ok (protocol, host, port) =>
    let base := trimSuffix siteName ".conf"
    let safeName := if strEndsWith base ".yaml" then base else base ++ ".yaml"
    if (fs.manifests.lookup safeName).isSome then fs
    else
      { fs with manifests :=
          fs.manifests ++ [(safeName, ⟨replaceChar base '_' ':', protocol, host, port⟩)] }

/-- Model of `Watcher.SyncManifests`: fold the reverse-discovery step over
the enumerated site list. -/
def syncManifests (m : Manager) (fs : FS) (probe : String → String → Bool) : FS :=
  (getSites m fs probe).foldl (fun f site => syncStep f site.name) fs

/-! ## Theorems -/

/-- C8: every mutating operation (`EnableSite`, `DisableSite`, `ArchiveSite`)
invoked with the main-config sentinel name "nginx.conf" fails with an error;
no state is produced, so all directories are left unchanged. -/
theorem sentinel_protected (m : Manager) (fs : FS) :
    enableSite m fs "nginx.conf" = .error "cannot toggle main nginx.conf" ∧
    disableSite m fs "nginx.conf" = .error "cannot toggle main nginx.conf" ∧
    archiveSite m fs "nginx.conf" = .error "cannot archive main nginx.conf" := by
  refine ⟨?_, ?_, ?_⟩ <;> simp [enableSite, disableSite, archiveSite]

/-- C10: `EnableSite` and `DisableSite` fail with an error whenever the
enabled directory is unconfigured (empty string); the error is returned
before any filesystem mutation (no successor state exists). -/
theorem enable_disable_require_enabledDir (m : Manager) (fs : FS) (name : String)
    (h : m.enabledDir = "") :
    (∃ e, enableSite m fs name = .error e) ∧ ∃ e, disableSite m fs name = .error e := by
  constructor
  · by_cases hn : name = "nginx.conf"
    · exact ⟨"cannot toggle main nginx.conf", by simp [enableSite, hn]⟩
    · exact ⟨"enabled directory not configured", by simp [enableSite, hn, h]⟩
  · by_cases hn : name = "nginx.conf"
    · exact ⟨"cannot toggle main nginx.conf", by simp [disableSite, hn]⟩
    · exact ⟨"enabled directory not configured", by simp [disableSite, hn, h]⟩

/-- Witness for C10 at a concrete unconfigured manager. -/
theorem enable_disable_require_enabledDir_witness :
    (∃ e, enableSite ⟨"/a", "", "/r", "nginx", "/m"⟩ ⟨[], [], [], [], none⟩ "x.conf" = .error e) ∧
    ∃ e, disableSite ⟨"/a", "", "/r", "nginx", "/m"⟩ ⟨[], [], [], [], none⟩ "x.conf" = .error e :=
  enable_disable_require_enabledDir ⟨"/a", "", "/r", "nginx", "/m"⟩ ⟨[], [], [], [], none⟩ "x.conf" rfl

/-- C6: `EnableSite` is idempotent: whenever an enable call succeeds (in
particular when the same-named link already exists), enabling again succeeds
without error and leaves the state (symlink target and enabled set)
unchanged. -/
theorem enableSite_idempotent (m : Manager) (fs fs' : FS) (name : String)
    (h : enableSite m fs name = .ok fs') :
    enableSite m fs' name = .ok fs' := by
  unfold enableSite at h ⊢
  by_cases h1 : name = "nginx.conf"
  · simp [h1] at h
  · by_cases h2 : m.enabledDir = ""
    · simp [h1, h2] at h
    · simp only [h1, h2, if_false, if_true, if_neg] at h ⊢
      cases hl : fs.enabled.lookup name with
      | some t =>
        rw [hl] at h
        cases h
        simp [hl]
      | none =>
        rw [hl] at h
        cases h
        simp [List.lookup]

/-- Witness for C6: a successful enable on an empty enabled set, re-run on
its own result. -/
theorem enableSite_idempotent_witness :
    enableSite ⟨"/a", "/e", "/r", "nginx", "/m"⟩
      ⟨[], [], [("x.conf", "/a/x.conf")], [], none⟩ "x.conf" =
      .ok ⟨[], [], [("x.conf", "/a/x.conf")], [], none⟩ :=
  enableSite_idempotent ⟨"/a", "/e", "/r", "nginx", "/m"⟩ ⟨[], [], [], [], none⟩
    ⟨[], [], [("x.conf", "/a/x.conf")], [], none⟩ "x.conf" (by rfl)

/-- C9: a manifest-change event whose parsed manifest has an empty domain or
a zero port is a terminal no-op: no config save, no enable, no validate, no
reload, and the store's state is unchanged. -/
theorem handleFileChange_discards_invalid (w : Watcher) (m : Manager) (fs : FS)
    (path : String) (app : AppManifest) (v : Bool)
    (h : app.domain = "" ∨ app.port = 0) :
    handleFileChange w m fs path (some app) v = (fs, []) := by
  unfold handleFileChange
  have hc : (app.domain = "" || app.port = 0) = true := by
    rcases h with h | h <;> simp [h]
  split
  · rfl
  · simp [hc]

/-- Spec-side reading of C2: the port is the first parameter of the `listen`
directive, "80" when `listen` is absent or parameterless. -/
def specListenPort (ds : List Directive) : String :=
  match ds.find? (fun d => d.name = "listen") with
  | some d => d.params.headD "80"
  | none => "80"

/-- Spec-side reading of C2: the domain is `server_name`'s first parameter,
empty when absent. -/
def specServerName (ds : List Directive) : String :=
  match ds.find? (fun d => d.name = "server_name") with
  | some d => d.params.headD ""
  | none => ""

/-- Spec-side reading of C2: TLS holds iff a literal "ssl" appears among a
`listen` directive's parameters or an `ssl_certificate` directive is
present. -/
def specHasTLS (ds : List Directive) : Bool :=
  ds.any (fun d => d.name = "listen" && d.params.contains "ssl") ||
  ds.any (fun d => d.name = "ssl_certificate")

theorem foldl_step_port_no_listen (ds : List Directive) (init : String × String × Bool)
    (h : ∀ d ∈ ds, ¬d.name = "listen") :
    (ds.foldl stepServerDir init).1 = init.1 := by
  induction ds generalizing init with
  | nil => rfl
  | cons d rest ih =>
    have hd := h d (List.mem_cons_self d rest)
    have hstep : (stepServerDir init d).1 = init.1 := by
      simp [stepServerDir, hd]
    rw [List.foldl_cons, ih _ (fun x hx => h x (List.mem_cons_of_mem d hx)), hstep]

theorem foldl_step_port (ds : List Directive) (init : String × String × Bool)
    (h : (ds.filter (fun d => d.name = "listen")).length ≤ 1) :
    (ds.foldl stepServerDir init).1 =
      match ds.find? (fun d => d.name = "listen") with
      | some d => d.params.headD init.1
      | none => init.1 := by
  induction ds generalizing init with
  | nil => rfl
  | cons d rest ih =>
    by_cases hd : d.name = "listen"
    · have hrest : ∀ x ∈ rest, ¬x.name = "listen" := by
        intro x hx hxn
        have : 1 + 1 ≤ (List.filter (fun d => d.name = "listen") (d :: rest)).length := by
          rw [List.filter_cons_of_pos (by simp [hd])]
          have : x ∈ rest.filter (fun d => d.name = "listen") :=
            List.mem_filter.mpr ⟨hx, by simp [hxn]⟩
          have := List.length_pos.mpr (List.ne_nil_of_mem this)
          simp only [List.length_cons]
          omega
        omega
      rw [List.foldl_cons, foldl_step_port_no_listen rest _ hrest]
      rw [List.find?_cons_of_pos _ (by simp [hd])]
      simp only [stepServerDir, hd, if_pos rfl]
      cases d.params <;> simp
    · have hfil : (rest.filter (fun d => d.name = "listen")).length ≤ 1 := by
        rw [List.filter_cons_of_neg (by simp [hd])] at h
        exact h
      rw [List.foldl_cons, ih _ hfil, List.find?_cons_of_neg _ (by simp [hd])]
      have hstep : (stepServerDir init d).1 = init.1 := by
        simp [stepServerDir, hd]
      cases hf : rest.find? (fun d => d.name = "listen") <;> simp [hstep]

theorem foldl_step_domain_no_sn (ds : List Directive) (init : String × String × Bool)
    (h : ∀ d ∈ ds, ¬d.name = "server_name") :
    (ds.foldl stepServerDir init).2.1 = init.2.1 := by
  induction ds generalizing init with
  | nil => rfl
  | cons d rest ih =>
    have hd := h d (List.mem_cons_self d rest)
    have hstep : (stepServerDir init d).2.1 = init.2.1 := by
      simp [stepServerDir, hd]
    rw [List.foldl_cons, ih _ (fun x hx => h x (List.mem_cons_of_mem d hx)), hstep]

theorem foldl_step_domain (ds : List Directive) (init : String × String × Bool)
    (h : (ds.filter (fun d => d.name = "server_name")).length ≤ 1) :
    (ds.foldl stepServerDir init).2.1 =
      match ds.find? (fun d => d.name = "server_name") with
      | some d => d.params.headD init.2.1
      | none => init.2.1 := by
  induction ds generalizing init with
  | nil => rfl
  | cons d rest ih =>
    by_cases hd : d.name = "server_name"
    · have hrest : ∀ x ∈ rest, ¬x.name = "server_name" := by
        intro x hx hxn
        have : 1 + 1 ≤ (List.filter (fun d => d.name = "server_name") (d :: rest)).length := by
          rw [List.filter_cons_of_pos (by simp [hd])]
          have : x ∈ rest.filter (fun d => d.name = "server_name") :=
            List.mem_filter.mpr ⟨hx, by simp [hxn]⟩
          have := List.length_pos.mpr (List.ne_nil_of_mem this)
          simp only [List.length_cons]
          omega
        omega
      rw [List.foldl_cons, foldl_step_domain_no_sn rest _ hrest]
      rw [List.find?_cons_of_pos _ (by simp [hd])]
      simp only [stepServerDir, hd, if_pos rfl]
      cases d.params <;> simp
    · have hfil : (rest.filter (fun d => d.name = "server_name")).length ≤ 1 := by
        rw [List.filter_cons_of_neg (by simp [hd])] at h
        exact h
      rw [List.foldl_cons, ih _ hfil, List.find?_cons_of_neg _ (by simp [hd])]
      have hstep : (stepServerDir init d).2.1 = init.2.1 := by
        simp [stepServerDir, hd]
      cases hf : rest.find? (fun d => d.name = "server_name") <;> simp [hstep]

theorem foldl_step_ssl (ds : List Directive) (init : String × String × Bool) :
    (ds.foldl stepServerDir init).2.2 =
      (init.2.2 || ds.any (fun d => d.name = "listen" && d.params.contains "ssl") ||
        ds.any (fun d => d.name = "ssl_certificate")) := by
  induction ds generalizing init with
  | nil => simp
  | cons d rest ih =>
    rw [List.foldl_cons, ih]
    have hstep : (stepServerDir init d).2.2 =
        (init.2.2 || (d.name = "listen" && d.params.contains "ssl") ||
          (d.name = "ssl_certificate" : Bool)) := by
      by_cases h1 : d.name = "listen"
      · have h2 : ¬d.name = "ssl_certificate" := by simp [h1]
        cases hp : d.params with
        | nil => simp [stepServerDir, h1, h2, hp]
        | cons p ps => simp [stepServerDir, h1, h2, hp]
      · by_cases h2 : d.name = "ssl_certificate"
        · simp [stepServerDir, h1, h2]
        · simp [stepServerDir, h1, h2]
    rw [hstep]
    simp [Bool.or_assoc, Bool.or_comm, Bool.or_left_comm]

/-- C2 counterexample: for a server block containing only (listen abc;), the
parameter "abc" is unparsable as a port number, yet `parseServerBlock`
returns it verbatim ("http://127.0.0.1:abc"), not the claimed default
"80". -/
theorem parseServerBlock_unparsable_cex :
    atoi "abc" = none ∧
    parseServerBlock (some [.mk "listen" ["abc"] none]) = ("http://127.0.0.1:abc", "", false) ∧
    parseServerBlock (some [.mk "listen" ["abc"] none]) ≠ ("http://127.0.0.1:80", "", false) := by
  refine ⟨by decide, by decide, by decide⟩

/-- C2 (amended): for every inspected server block containing at most one
`listen` and at most one `server_name` directive, the returned port is
`listen`'s first parameter taken verbatim — defaulting to "80" only when
`listen` is absent or parameterless, an unparsable parameter being embedded
as-is — hasTLS is true iff a literal "ssl" appears among `listen`'s
parameters or an `ssl_certificate` directive is present, the domain is
`server_name`'s first parameter (empty if absent), and the returned check
URL is exactly "http://127.0.0.1:" followed by that port. -/
theorem parseServerBlock_amended (ds : List Directive)
    (hl : (ds.filter (fun d => d.name = "listen")).length ≤ 1)
    (hs : (ds.filter (fun d => d.name = "server_name")).length ≤ 1) :
    parseServerBlock (some ds) =
      ("http://127.0.0.1:" ++ specListenPort ds, specServerName ds, specHasTLS ds) := by
  have hp := foldl_step_port ds ("80", "", false) hl
  have hd := foldl_step_domain ds ("80", "", false) hs
  have hss := foldl_step_ssl ds ("80", "", false)
  show ("http://127.0.0.1:" ++ (List.foldl stepServerDir ("80", "", false) ds).1,
      (List.foldl stepServerDir ("80", "", false) ds).2.1,
      (List.foldl stepServerDir ("80", "", false) ds).2.2) = _
  rw [hp, hd, hss]
  simp [specListenPort, specServerName, specHasTLS]

/-- Witness for C2 (amended), at the claim's own example: a block with
(listen 8080;), no ssl parameter and no ssl_certificate yields hasTLS false
and check URL "http://127.0.0.1:8080". -/
theorem parseServerBlock_amended_witness :
    parseServerBlock (some [.mk "listen" ["8080"] none,
      .mk "server_name" ["shop.example.com"] none]) =
      ("http://127.0.0.1:8080", "shop.example.com", false) := by
  rw [parseServerBlock_amended _ (by decide) (by decide)]
  rfl

/-- The config text of the reverse-sync scenario: a server block proxying to
http://127.0.0.1:5000. -/
def shopConfText : String :=
  "server \x7b\n    listen 80;\n    server_name shop.example.com;\n    location / \x7b\n        proxy_pass http://127.0.0.1:5000;\n    \x7d\n\x7d\n"

/-- C3: reverse-sync on an available config named "shop.example.com.conf"
containing proxy_pass http://127.0.0.1:5000 and no existing manifest: one
run produces the manifest (shop.example.com, http, 127.0.0.1, 5000) under
"shop.example.com.yaml", and a second run is a no-op. -/
theorem syncManifests_scenario (probe : String → String → Bool) :
    syncManifests ⟨"/etc/nginx/sites-available", "/etc/nginx/sites-enabled",
        "/etc/nginx/sites-archived", "nginx", "/etc/nginx/nginx.conf"⟩
      ⟨[⟨"shop.example.com.conf", false, shopConfText⟩], [], [], [], none⟩ probe =
      ⟨[⟨"shop.example.com.conf", false, shopConfText⟩], [], [],
        [("shop.example.com.yaml", ⟨"shop.example.com", "http", "127.0.0.1", 5000⟩)], none⟩ ∧
    syncManifests ⟨"/etc/nginx/sites-available", "/etc/nginx/sites-enabled",
        "/etc/nginx/sites-archived", "nginx", "/etc/nginx/nginx.conf"⟩
      ⟨[⟨"shop.example.com.conf", false, shopConfText⟩], [], [],
        [("shop.example.com.yaml", ⟨"shop.example.com", "http", "127.0.0.1", 5000⟩)], none⟩ probe =
      ⟨[⟨"shop.example.com.conf", false, shopConfText⟩], [], [],
        [("shop.example.com.yaml", ⟨"shop.example.com", "http", "127.0.0.1", 5000⟩)], none⟩ :=
  ⟨rfl, rfl⟩

theorem buildSiteInfo_name (m : Manager) (fs : FS) (probe : String → String → Bool)
    (f : String) : (buildSiteInfo m fs probe f).name = f := rfl

theorem mem_getSites_iff (m : Manager) (fs : FS) (probe : String → String → Bool)
    {s : SiteInfo} :
    s ∈ getSites m fs probe ↔ s ∈ (rawSites m fs).map (buildSiteInfo m fs probe) :=
  List.mem_insertionSort byName

theorem disableSite_preserves (m : Manager) (fs : FS) (name : String) (fs' : FS)
    (h : disableSite m fs name = .ok fs') :
    fs'.avail = fs.avail ∧ fs'.arch = fs.arch ∧ fs'.manifests = fs.manifests ∧
      fs'.mainText = fs.mainText := by
  unfold disableSite at h
  by_cases h1 : name = "nginx.conf"
  · simp [h1] at h
  · by_cases h2 : m.enabledDir = ""
    · simp [h1, h2] at h
    · simp only [h1, h2, if_neg, if_false] at h
      cases hl : fs.enabled.lookup name <;> rw [hl] at h
      · cases h
      · cases h
        exact ⟨rfl, rfl, rfl, rfl⟩

theorem name_not_mem_erased (l : List DirEntry) (p : DirEntry → Bool) (name : String) :
    name ∉ List.map DirEntry.name (List.filter p (eraseEntry l name)) := by
  intro hmem
  rw [List.mem_map] at hmem
  obtain ⟨e, hef, hnm⟩ := hmem
  rw [List.mem_filter] at hef
  have := hef.1
  rw [eraseEntry, List.mem_filter] at this
  have hne := this.2
  simp [hnm] at hne

/-- C5 counterexample: archiving an extensionless available config named
"mysite" succeeds, but the name then vanishes from the next enumeration
instead of appearing with isArchived == true, because the archived-directory
scan only lists names ending in ".conf". -/
theorem archiveSite_cex :
    archiveSite ⟨"/a", "/e", "/r", "nginx", "/m"⟩
        ⟨[⟨"mysite", false, "server \x7b listen 80; \x7d"⟩], [], [], [], none⟩ "mysite" =
      .ok ⟨[], [⟨"mysite", false, "server \x7b listen 80; \x7d"⟩], [], [], none⟩ ∧
    (getSites ⟨"/a", "/e", "/r", "nginx", "/m"⟩
        ⟨[], [⟨"mysite", false, "server \x7b listen 80; \x7d"⟩], [], [], none⟩
        (fun _ _ => false)).map SiteInfo.name = ["nginx.conf"] :=
  ⟨rfl, rfl⟩

/-- C5 (amended): `ArchiveSite` on a non-sentinel name first attempts a
disable whose error is swallowed, then moves the file from the available to
the archived directory; it succeeds even if the name was already disabled,
and — provided the name carries the ".conf" extension the archived scan
filters on — the name appears in the next enumeration with
isEnabled == false and isArchived == true. -/
theorem archived_entry_flags (m : Manager) (fsx : FS) (name : String) (e : DirEntry)
    (hdir : m.archivedDir ≠ "") (hename : e.name = name) (hnd : e.isDir = false)
    (hsuf : strEndsWith name ".conf" = true) (hmem : e ∈ fsx.arch) :
    ∀ probe : String → String → Bool,
      (∃ s ∈ getSites m fsx probe, s.name = name) ∧
      ∀ s ∈ getSites m fsx probe, s.name = name →
        s.isEnabled = false ∧ s.isArchived = true := by
  intro probe
  have harch : name ∈ archNames m fsx := by
    rw [archNames, if_neg hdir]
    rw [List.mem_map]
    refine ⟨e, ?_, hename⟩
    rw [List.mem_filter]
    refine ⟨hmem, ?_⟩
    rw [hnd, hename]
    simp [hsuf]
  have hcont : (archNames m fsx).contains name = true := by
    rw [List.contains, List.elem_eq_mem]
    exact decide_eq_true harch
  have hflags : (buildSiteInfo m fsx probe name).isEnabled = false ∧
      (buildSiteInfo m fsx probe name).isArchived = true := by
    constructor
    · show (let isArch := (archNames m fsx).contains name;
        if m.enabledDir ≠ "" && name ≠ "nginx.conf" && !isArch then
          (fsx.enabled.lookup name).isSome
        else if isArch then false else true) = false
      rw [hcont]
      simp
    · show (archNames m fsx).contains name = true
      exact hcont
  constructor
  · refine ⟨buildSiteInfo m fsx probe name, ?_, buildSiteInfo_name m fsx probe name⟩
    rw [mem_getSites_iff]
    exact List.mem_map_of_mem _ (by
      rw [rawSites]
      exact List.mem_cons_of_mem _ (List.mem_append_right _ harch))
  · intro s hs hsname
    rw [mem_getSites_iff, List.mem_map] at hs
    obtain ⟨f, _, rfl⟩ := hs
    rw [buildSiteInfo_name] at hsname
    rw [hsname]
    exact hflags

theorem archiveSite_amended (m : Manager) (fs : FS) (name : String) (e : DirEntry)
    (hn : name ≠ "nginx.conf")
    (hsuf : strEndsWith name ".conf" = true)
    (hdir : m.archivedDir ≠ "")
    (hfind : findEntry fs.avail name = some e)
    (hnd : e.isDir = false) :
    ∃ fs', archiveSite m fs name = .ok fs' ∧
      ∀ probe : String → String → Bool,
        (∃ s ∈ getSites m fs' probe, s.name = name) ∧
        ∀ s ∈ getSites m fs' probe, s.name = name →
          s.isEnabled = false ∧ s.isArchived = true := by
  have hename : e.name = name := by
    have := List.find?_some hfind
    simpa using this
  unfold archiveSite
  rw [if_neg hn]
  cases hd : disableSite m fs name with
  | ok f =>
    obtain ⟨hav, har, _, _⟩ := disableSite_preserves m fs name f hd
    dsimp only
    rw [hav, hfind]
    exact ⟨_, rfl, archived_entry_flags m _ name e hdir hename hnd hsuf
      (List.mem_append_right _ (List.mem_singleton.mpr rfl))⟩
  | error err =>
    dsimp only
    rw [hfind]
    exact ⟨_, rfl, archived_entry_flags m _ name e hdir hename hnd hsuf
      (List.mem_append_right _ (List.mem_singleton.mpr rfl))⟩

/-- Witness for C5 (amended): a concrete enabled ".conf" site is archived
and shows up disabled and archived in the next enumeration. -/
theorem archiveSite_amended_witness :
    ∃ fs', archiveSite ⟨"/a", "/e", "/r", "nginx", "/m"⟩
        ⟨[⟨"a.conf", false, "x"⟩], [], [("a.conf", "/a/a.conf")], [], none⟩ "a.conf" = .ok fs' ∧
      ∀ probe : String → String → Bool,
        (∃ s ∈ getSites ⟨"/a", "/e", "/r", "nginx", "/m"⟩ fs' probe, s.name = "a.conf") ∧
        ∀ s ∈ getSites ⟨"/a", "/e", "/r", "nginx", "/m"⟩ fs' probe, s.name = "a.conf" →
          s.isEnabled = false ∧ s.isArchived = true :=
  archiveSite_amended ⟨"/a", "/e", "/r", "nginx", "/m"⟩
    ⟨[⟨"a.conf", false, "x"⟩], [], [("a.conf", "/a/a.conf")], [], none⟩ "a.conf"
    ⟨"a.conf", false, "x"⟩ (by decide) (by rfl) (by decide) (by rfl) (by rfl)

theorem avail_entry_not_enabled (m : Manager) (fsx : FS) (name : String)
    (hn : name ≠ "nginx.conf") (hed : m.enabledDir ≠ "")
    (hlkp : fsx.enabled.lookup name = none)
    (harch : (archNames m fsx).contains name = false) :
    ∀ probe : String → String → Bool,
      ∀ s ∈ getSites m fsx probe, s.name = name → s.isEnabled = false := by
  intro probe s hs hsname
  rw [mem_getSites_iff, List.mem_map] at hs
  obtain ⟨f, _, rfl⟩ := hs
  rw [buildSiteInfo_name] at hsname
  subst hsname
  show (let isArch := (archNames m fsx).contains f;
    if m.enabledDir ≠ "" && f ≠ "nginx.conf" && !isArch then
      (fsx.enabled.lookup f).isSome
    else if isArch then false else true) = false
  rw [harch]
  simp only [Bool.not_false, Bool.and_true]
  rw [if_pos (by simp [hed, hn])]
  show (fsx.enabled.lookup f).isSome = false
  rw [hlkp]
  rfl

/-- C7 counterexample: `RestoreSite` has no sentinel guard; restoring an
archived file named "nginx.conf" succeeds, and the restored name immediately
appears enabled (twice: as the sentinel and as a discovered file) in the
next enumeration without any `EnableSite` call. -/
theorem restoreSite_cex :
    restoreSite ⟨[], [⟨"nginx.conf", false, "x"⟩], [], [], none⟩ "nginx.conf" =
      .ok ⟨[⟨"nginx.conf", false, "x"⟩], [], [], [], none⟩ ∧
    ((getSites ⟨"/a", "/e", "/r", "nginx", "/m"⟩
        ⟨[⟨"nginx.conf", false, "x"⟩], [], [], [], none⟩ (fun _ _ => false)).filter
      (fun s => s.name == "nginx.conf" && s.isEnabled)).length = 2 :=
  ⟨rfl, rfl⟩

/-- C7 (amended): `RestoreSite` fails with a Conflict error whenever a
same-named file already exists in the available directory (no state is
produced, so both directories are unchanged); on success it moves the file
from the archived to the available directory and leaves the enabled set
untouched, so a non-sentinel name with no pre-existing symlink (and a
configured enabled directory) does not appear enabled without an explicit
subsequent `EnableSite` call.  (The sentinel name "nginx.conf", which
`RestoreSite` does not guard against, reappears always-enabled.) -/
theorem restoreSite_amended (fs : FS) (name : String) :
    ((findEntry fs.avail name).isSome →
      restoreSite fs name = .error ("site " ++ name ++ " already exists in available sites")) ∧
    (∀ fs', restoreSite fs name = .ok fs' →
      fs'.enabled = fs.enabled ∧
      (∃ e, findEntry fs.arch name = some e ∧ fs'.avail = fs.avail ++ [e] ∧
        fs'.arch = eraseEntry fs.arch name) ∧
      (∀ (m : Manager) (probe : String → String → Bool),
        name ≠ "nginx.conf" → m.enabledDir ≠ "" → fs.enabled.lookup name = none →
        ∀ s ∈ getSites m fs' probe, s.name = name → s.isEnabled = false)) := by
  constructor
  · intro hsome
    unfold restoreSite
    cases hf : findEntry fs.avail name with
    | some e => rfl
    | none => rw [hf] at hsome; cases hsome
  · intro fs' h
    unfold restoreSite at h
    cases hf : findEntry fs.avail name <;> rw [hf] at h
    case some e => cases h
    cases hg : findEntry fs.arch name <;> rw [hg] at h
    case none => cases h
    case some e =>
    cases h
    refine ⟨rfl, ⟨e, rfl, rfl, rfl⟩, ?_⟩
    intro m probe hn hed hlkp
    refine avail_entry_not_enabled m
      ⟨fs.avail ++ [e], eraseEntry fs.arch name, fs.enabled, fs.manifests, fs.mainText⟩
      name hn hed hlkp ?_ probe
    rw [List.contains, List.elem_eq_mem]
    rw [decide_eq_false_iff_not]
    intro hmem
    rw [archNames] at hmem
    by_cases hz : m.archivedDir = ""
    · rw [if_pos hz] at hmem; cases hmem
    · rw [if_neg hz] at hmem
      exact name_not_mem_erased fs.arch _ name hmem

/-- Witness for C7 (amended): the conflict branch and the success branch at
concrete states. -/
theorem restoreSite_amended_witness :
    (((findEntry (FS.mk [⟨"b.conf", false, "y"⟩] [] [] [] none).avail "b.conf").isSome →
      restoreSite ⟨[⟨"b.conf", false, "y"⟩], [], [], [], none⟩ "b.conf" =
        .error ("site " ++ "b.conf" ++ " already exists in available sites")) ∧
    (∀ fs', restoreSite ⟨[⟨"b.conf", false, "y"⟩], [], [], [], none⟩ "b.conf" = .ok fs' →
      fs'.enabled = (FS.mk [⟨"b.conf", false, "y"⟩] [] [] [] none).enabled ∧
      (∃ e, findEntry (FS.mk [⟨"b.conf", false, "y"⟩] [] [] [] none).arch "b.conf" = some e ∧
        fs'.avail = (FS.mk [⟨"b.conf", false, "y"⟩] [] [] [] none).avail ++ [e] ∧
        fs'.arch = eraseEntry (FS.mk [⟨"b.conf", false, "y"⟩] [] [] [] none).arch "b.conf") ∧
      (∀ (m : Manager) (probe : String → String → Bool),
        "b.conf" ≠ "nginx.conf" → m.enabledDir ≠ "" →
        (FS.mk [⟨"b.conf", false, "y"⟩] [] [] [] none).enabled.lookup "b.conf" = none →
        ∀ s ∈ getSites m fs' probe, s.name = "b.conf" → s.isEnabled = false))) ∧
    restoreSite ⟨[⟨"b.conf", false, "y"⟩], [], [], [], none⟩ "b.conf" =
      .error ("site " ++ "b.conf" ++ " already exists in available sites") :=
  ⟨restoreSite_amended ⟨[⟨"b.conf", false, "y"⟩], [], [], [], none⟩ "b.conf",
    (restoreSite_amended ⟨[⟨"b.conf", false, "y"⟩], [], [], [], none⟩ "b.conf").1 (by rfl)⟩

/-- C4: enumeration of N discovered sites returns exactly N+1 entries — one
per discovered filename plus the main-config sentinel — each with a
non-empty name, sorted by name, regardless of probe outcomes (the probe is
universally quantified); no entry is dropped.  The hypothesis that directory
entries carry non-empty names is an operating-system guarantee. -/
theorem getSites_complete (m : Manager) (fs : FS) (probe : String → String → Bool)
    (h : ∀ e ∈ fs.avail, e.name ≠ "") :
    (getSites m fs probe).length = ((availNames fs).length + (archNames m fs).length) + 1 ∧
    (∀ s ∈ getSites m fs probe, s.name ≠ "") ∧
    List.Sorted byName (getSites m fs probe) := by
  refine ⟨?_, ?_, ?_⟩
  · unfold getSites sortByName
    rw [List.length_insertionSort, List.length_map, rawSites]
    simp [List.length_append]
  · intro s hs
    rw [mem_getSites_iff, List.mem_map] at hs
    obtain ⟨f, hf, rfl⟩ := hs
    rw [buildSiteInfo_name]
    rw [rawSites, List.mem_cons] at hf
    rcases hf with rfl | hf
    · decide
    rw [List.mem_append] at hf
    rcases hf with hf | hf
    · rw [availNames, List.mem_map] at hf
      obtain ⟨e, he, rfl⟩ := hf
      exact h e (List.mem_filter.mp he).1
    · rw [archNames] at hf
      by_cases hz : m.archivedDir = ""
      · rw [if_pos hz] at hf; cases hf
      · rw [if_neg hz] at hf
        rw [List.mem_map] at hf
        obtain ⟨e, he, rfl⟩ := hf
        have hsuf : strEndsWith e.name ".conf" = true :=
          (Bool.and_eq_true_iff.mp (List.mem_filter.mp he).2).2
        intro hemp
        rw [hemp] at hsuf
        exact absurd hsuf (by decide)
  · exact List.sorted_insertionSort byName _

/-- Witness for C4 at a concrete state with one available and one archived
site. -/
theorem getSites_complete_witness :
    (getSites ⟨"/a", "/e", "/r", "nginx", "/m"⟩
        ⟨[⟨"b.conf", false, "x"⟩], [⟨"c.conf", false, "y"⟩], [], [], none⟩
        (fun _ _ => true)).length =
      ((availNames ⟨[⟨"b.conf", false, "x"⟩], [⟨"c.conf", false, "y"⟩], [], [], none⟩).length +
        (archNames ⟨"/a", "/e", "/r", "nginx", "/m"⟩
          ⟨[⟨"b.conf", false, "x"⟩], [⟨"c.conf", false, "y"⟩], [], [], none⟩).length) + 1 ∧
    (∀ s ∈ getSites ⟨"/a", "/e", "/r", "nginx", "/m"⟩
        ⟨[⟨"b.conf", false, "x"⟩], [⟨"c.conf", false, "y"⟩], [], [], none⟩
        (fun _ _ => true), s.name ≠ "") ∧
    List.Sorted byName (getSites ⟨"/a", "/e", "/r", "nginx", "/m"⟩
        ⟨[⟨"b.conf", false, "x"⟩], [⟨"c.conf", false, "y"⟩], [], [], none⟩
        (fun _ _ => true)) :=
  getSites_complete ⟨"/a", "/e", "/r", "nginx", "/m"⟩
    ⟨[⟨"b.conf", false, "x"⟩], [⟨"c.conf", false, "y"⟩], [], [], none⟩
    (fun _ _ => true) (by decide)

/-- Witness for C9 at a concrete manifest with an empty domain. -/
theorem handleFileChange_discards_invalid_witness :
    handleFileChange ⟨"/apps", 80⟩ ⟨"/a", "/e", "/r", "nginx", "/m"⟩ ⟨[], [], [], [], none⟩
      "/apps/x.yaml" (some ⟨"", "http", "127.0.0.1", 3000⟩) true = (⟨[], [], [], [], none⟩, []) :=
  handleFileChange_discards_invalid ⟨"/apps", 80⟩ ⟨"/a", "/e", "/r", "nginx", "/m"⟩
    ⟨[], [], [], [], none⟩ "/apps/x.yaml" ⟨"", "http", "127.0.0.1", 3000⟩ true (Or.inl rfl)

theorem digit_mem (k : Nat) (h : k < 10) : Char.ofNat (k + 48) ∈ ("0123456789").data := by
  interval_cases k <;> decide

theorem natDigitsRevAux_subset (fuel : Nat) :
    ∀ n, ∀ c ∈ natDigitsRevAux fuel n, c ∈ ("0123456789").data := by
  induction fuel with
  | zero =>
    intro n c hc
    cases n <;> simp [natDigitsRevAux] at hc
  | succ fuel ih =>
    intro n c hc
    cases n with
    | zero => simp [natDigitsRevAux] at hc
    | succ m =>
      rw [natDigitsRevAux] at hc
      rcases List.mem_cons.mp hc with rfl | hc
      · exact digit_mem _ (Nat.mod_lt _ (by omega))
      · exact ih _ c hc

theorem intRepr_chars (i : Int) : ∀ c ∈ (intRepr i).data, c ∈ ("-0123456789").data := by
  have hnat : ∀ n : Nat, ∀ c ∈ (natRepr n).data, c ∈ ("-0123456789").data := by
    intro n c hc
    rw [natRepr] at hc
    by_cases h : n = 0
    · rw [if_pos h] at hc
      simp at hc
      rw [hc]; decide
    · rw [if_neg h] at hc
      have : c ∈ (natDigitsRev n).reverse := hc
      rw [List.mem_reverse] at this
      exact List.mem_cons_of_mem _ (natDigitsRevAux_subset n n c this)
  cases i with
  | ofNat n => exact hnat n
  | negSucc n =>
    intro c hc
    have : c ∈ '-' :: (natRepr (n + 1)).data := hc
    rcases List.mem_cons.mp this with rfl | h
    · decide
    · exact hnat (n + 1) c h

theorem intRepr_data_ne_nil (i : Int) : (intRepr i).data ≠ [] := by
  cases i with
  | ofNat n =>
    show (natRepr n).data ≠ []
    rw [natRepr]
    by_cases h : n = 0
    · rw [if_pos h]; decide
    · rw [if_neg h]
      show (natDigitsRev n).reverse ≠ []
      cases n with
      | zero => exact absurd rfl h
      | succ m =>
        rw [natDigitsRev, natDigitsRevAux]
        simp
  | negSucc n =>
    show '-' :: (natRepr (n + 1)).data ≠ []
    simp

theorem intRepr_ne (i : Int) (t : String) (c0 : Char) (hc0 : c0 ∈ t.data)
    (hbad : c0 ∉ ("-0123456789").data) : ¬intRepr i = t := by
  intro h
  exact hbad (intRepr_chars i c0 (h ▸ hc0))

theorem intRepr_tok_facts (i : Int) :
    ∀ c ∈ (intRepr i).data, isSpaceChar c = false ∧ isSpecialChar c = false := by
  intro c hc
  have hall : ∀ x ∈ ("-0123456789").data, isSpaceChar x = false ∧ isSpecialChar x = false := by
    decide
  exact hall c (intRepr_chars i c hc)

theorem tokenizeAux_word (w : List Char)
    (hw : ∀ c ∈ w, isSpaceChar c = false ∧ isSpecialChar c = false) :
    ∀ (acc rest : List Char),
      tokenizeAux (w ++ rest) acc = tokenizeAux rest (w.reverse ++ acc) := by
  induction w with
  | nil => intro acc rest; simp
  | cons c w' ih =>
    intro acc rest
    have hc := hw c (List.mem_cons_self c w')
    rw [List.cons_append, tokenizeAux, hc.1, hc.2]
    simp only [if_false, Bool.false_eq_true]
    rw [ih (fun x hx => hw x (List.mem_cons_of_mem c hx)) (c :: acc) rest]
    simp

theorem tokenizeAux_special (c : Char) (hs : isSpaceChar c = false)
    (hc : isSpecialChar c = true) (cs acc : List Char) :
    tokenizeAux (c :: cs) acc = flushTok acc ++ [String.mk [c]] ++ tokenizeAux cs [] := by
  rw [tokenizeAux, hs, hc]
  simp

theorem flushTok_reverse (s : String) (h : s.data ≠ []) : flushTok s.data.reverse = [s] := by
  rw [flushTok, if_neg (by simpa using h)]
  simp

theorem tokenizeAux_c1_head (r : List Char) :
    tokenizeAux (("server \x7b\n    listen ").data ++ r) [] =
      ["server", "\x7b", "listen"] ++ tokenizeAux r [] := rfl

/-- The remainder of the rendered C1 config after the listen port. -/
def c1Rest : String :=
  ";\n    server_name api.example.com;\n\n    location / \x7b\n        proxy_pass http://127.0.0.1:4000;\n        proxy_set_header Host $host;\n        proxy_set_header X-Real-IP $remote_addr;\n    \x7d\n\x7d\n"

theorem render_c1 (w : Watcher) :
    generateNginxConfig w ⟨"api.example.com", "http", "127.0.0.1", 4000⟩ =
      "server \x7b\n    listen " ++ (intRepr w.nginxListenPort ++ c1Rest) := by
  unfold generateNginxConfig c1Rest
  rw [show splitHostPort "api.example.com" = none from rfl]
  dsimp only
  rw [show intRepr 4000 = "4000" from rfl]
  apply String.ext
  simp only [String.data_append, List.append_assoc]
  congr 2

/-- The token stream of the rendered C1 config. -/
def c1Tokens (lp : Int) : List String :=
  ["server", "\x7b", "listen", intRepr lp, ";", "server_name", "api.example.com", ";",
   "location", "/", "\x7b", "proxy_pass", "http://127.0.0.1:4000", ";",
   "proxy_set_header", "Host", "$host", ";",
   "proxy_set_header", "X-Real-IP", "$remote_addr", ";", "\x7d", "\x7d"]

set_option maxRecDepth 4000 in
theorem tokenize_c1 (lp : Int) :
    tokenize ("server \x7b\n    listen " ++ (intRepr lp ++ c1Rest)) = c1Tokens lp := by
  unfold tokenize c1Tokens
  rw [String.data_append, String.data_append]
  rw [tokenizeAux_c1_head]
  rw [tokenizeAux_word (intRepr lp).data (intRepr_tok_facts lp) [] c1Rest.data]
  rw [List.append_nil]
  rw [show c1Rest.data = ';' :: ("\n    server_name api.example.com;\n\n    location / \x7b\n        proxy_pass http://127.0.0.1:4000;\n        proxy_set_header Host $host;\n        proxy_set_header X-Real-IP $remote_addr;\n    \x7d\n\x7d\n").data from rfl]
  rw [tokenizeAux_special ';' (by decide) (by decide)]
  rw [flushTok_reverse (intRepr lp) (intRepr_data_ne_nil lp)]
  rfl

/-- The directive tree of the rendered C1 config. -/
def c1Tree (lp : Int) : List Directive :=
  [.mk "server" [] (some [.mk "listen" [intRepr lp] none,
    .mk "server_name" ["api.example.com"] none,
    .mk "location" ["/"] (some [.mk "proxy_pass" ["http://127.0.0.1:4000"] none,
      .mk "proxy_set_header" ["Host", "$host"] none,
      .mk "proxy_set_header" ["X-Real-IP", "$remote_addr"] none])])]

theorem parse_c1 (lp : Int) :
    parseNginxConfig ("server \x7b\n    listen " ++ (intRepr lp ++ c1Rest)) =
      some (c1Tree lp) := by
  have h1 : ¬intRepr lp = ";" := intRepr_ne lp ";" ';' (by decide) (by decide)
  have h2 : ¬intRepr lp = "\x7b" := intRepr_ne lp "\x7b" '\x7b' (by decide) (by decide)
  have h3 : ¬intRepr lp = "\x7d" := intRepr_ne lp "\x7d" '\x7d' (by decide) (by decide)
  unfold parseNginxConfig c1Tree
  rw [tokenize_c1]
  unfold c1Tokens
  simp [parseDirs, parseOne, h1, h2, h3]

theorem extract_c1 (lp : Int) :
    extractSiteDetails (some (c1Tree lp)) =
      ("http://127.0.0.1:" ++ intRepr lp, "api.example.com", false) := by
  have hssl : ¬"ssl" = intRepr lp :=
    fun h => intRepr_ne lp "ssl" 's' (by decide) (by decide) h.symm
  unfold c1Tree
  simp [extractSiteDetails, firstServer, parseServerBlock, stepServerDir, Directive.name,
    Directive.params, Directive.block, hssl]

theorem proxy_c1 (lp : Int) :
    getProxyTargetConf (some ("server \x7b\n    listen " ++ (intRepr lp ++ c1Rest))) =
      .ok ("http", "127.0.0.1", 4000) := by
  unfold getProxyTargetConf
  dsimp only
  rw [parse_c1, tokenize_c1]
  unfold c1Tokens c1Tree
  simp only [List.length_cons, List.length_nil]
  simp [proxyScanTop, findProxyPass, proxyPassParam, Directive.name, Directive.params,
    Directive.block]
  rw [show parseProxyUrl "http://127.0.0.1:4000" = ("http", "127.0.0.1", 4000) from rfl]

/-- C1: forward-then-inspect round trip.  For the manifest
(api.example.com, http, 127.0.0.1, 4000), rendering a low-level config and
inspecting the rendered text recovers server_name "api.example.com", a
listen port equal to the engine's configured public-facing port (the watcher
is universally quantified, and api.example.com embeds no host:port form),
and a proxy target of exactly (http, 127.0.0.1, 4000). -/
theorem generate_inspect_roundtrip (w : Watcher) :
    extractSiteDetails (parseNginxConfig
        (generateNginxConfig w ⟨"api.example.com", "http", "127.0.0.1", 4000⟩)) =
      ("http://127.0.0.1:" ++ intRepr w.nginxListenPort, "api.example.com", false) ∧
    getProxyTargetConf
        (some (generateNginxConfig w ⟨"api.example.com", "http", "127.0.0.1", 4000⟩)) =
      .ok ("http", "127.0.0.1", 4000) := by
  rw [render_c1, parse_c1]
  exact ⟨extract_c1 w.nginxListenPort, proxy_c1 w.nginxListenPort⟩

end NginxUI
